import Mathlib

/-!
Shallow embedding of the analytical core of the Stock-Research-App repository
(`src/data/calculator.py` and `src/utils/stats.py`), together with theorems
settling the specification claims about it.

Modelling conventions:
* Dates are integers counting days from an epoch that falls on a Monday, so
  that `d % 7` is the Python `datetime.weekday()` convention
  (Monday = 0 … Sunday = 6, Friday = 4).  Python `%` on integers is
  floor/Euclidean modulus, which coincides with Lean `Int.emod`.
* Prices and percentage returns are rationals `ℚ` (the Python floats,
  modelled exactly).
* A pandas `DataFrame`/`Series` indexed by dates is a `List (ℤ × ℚ)` of
  (date, value) pairs, in index order.
* A Python dict returned by a function is a structure; a function that can
  return `{}` returns an `Option`; a function that can raise (`KeyError`)
  returns an `Except Unit`.
* `pd.DateOffset(years = n)` subtraction is modelled by converting the day
  number to a proleptic-Gregorian civil date, subtracting `n` from the year,
  clamping the day to the target month length (Feb 29 → Feb 28) and
  converting back.
* `datetime.now()` (the wall-clock "today" read inside
  `predict_future_week_price`) is passed as an explicit `today` parameter,
  universally quantified in the theorems.
-/

/-! ## Civil-calendar arithmetic backing `pd.DateOffset(years = n)` -/

/-- Gregorian leap-year test. -/
def isLeapYear (y : ℤ) : Bool :=
  decide (y % 4 = 0) && (decide (y % 100 ≠ 0) || decide (y % 400 = 0))

/-- Number of days in month `m` of year `y`. -/
def daysInMonth (y m : ℤ) : ℤ :=
  if m = 2 then (if isLeapYear y then 29 else 28)
  else if m = 4 ∨ m = 6 ∨ m = 9 ∨ m = 11 then 30 else 31

/-- Day number of the civil date `(y, m, d)` (days-from-civil algorithm,
shifted so that day 0 of the count is a Monday: 1970-01-05 is day 0). -/
def daysFromCivil (y m d : ℤ) : ℤ :=
  let yy := if m ≤ 2 then y - 1 else y
  let era := Int.fdiv yy 400
  let yoe := yy - era * 400
  let mp := (m + 9) % 12
  let doy := (153 * mp + 2) / 5 + d - 1
  let doe := yoe * 365 + yoe / 4 - yoe / 100 + doy
  era * 146097 + doe - 719472

/-- Civil date `(y, m, d)` of a day number (civil-from-days algorithm). -/
def civilFromDays (z : ℤ) : ℤ × ℤ × ℤ :=
  let z2 := z + 719472
  let era := Int.fdiv z2 146097
  let doe := z2 - era * 146097
  let yoe := (doe - doe / 1460 + doe / 36524 - doe / 146096) / 365
  let y := yoe + era * 400
  let doy := doe - (365 * yoe + yoe / 4 - yoe / 100)
  let mp := (5 * doy + 2) / 153
  let d := doy - (153 * mp + 2) / 5 + 1
  let m := if mp < 10 then mp + 3 else mp - 9
  (if m ≤ 2 then y + 1 else y, m, d)

/-- `z - pd.DateOffset(years = n)`: same month/day `n` calendar years back,
with the day clamped to the length of the target month. -/
def subYearsDate (z n : ℤ) : ℤ :=
  let c := civilFromDays z
  let y2 := c.1 - n
  daysFromCivil y2 c.2.1 (min c.2.2 (daysInMonth y2 c.2.1))

/-! ## Price projector (`predict_future_week_price`, `predict_current_week_price`) -/

/-- The statistics dict handed to the projector, with each of the three keys
the projector reads possibly absent (`stats['average']`, `stats['maximum']`,
`stats['minimum']`). -/
structure StatsDict where
  average : Option ℚ
  minimum : Option ℚ
  maximum : Option ℚ
deriving DecidableEq

/-- The projection dict built by `predict_future_week_price`
(`target_date_str` is presentation-only formatting of `target_date` and is
not modelled separately). -/
structure Projection where
  current_price : ℚ
  expected_price : ℚ
  optimistic_price : ℚ
  pessimistic_price : ℚ
  expected_change : ℚ
  optimistic_change : ℚ
  pessimistic_change : ℚ
  weeks_ahead : ℤ
  target_date : ℤ
  weekly_avg_return : ℚ
  weekly_max_return : ℚ
  weekly_min_return : ℚ
deriving DecidableEq

/-- The target-date computation of `predict_future_week_price`:
`today + weeks_ahead*7` days, then advanced to the next Friday when the
landing day is not already a Friday (`(4 - weekday) % 7` days added when
positive). -/
def targetDate (today weeks_ahead : ℤ) : ℤ :=
  if 0 < (4 - (today + weeks_ahead * 7) % 7) % 7
  then today + weeks_ahead * 7 + (4 - (today + weeks_ahead * 7) % 7) % 7
  else today + weeks_ahead * 7

/-- `predict_future_week_price(current_price, stats, weeks_ahead)` with the
wall clock `today` passed explicitly.  The Python guard is
`if not stats or 'average' not in stats or weeks_ahead < 1: return {}`
(an empty dict is one without `average`, so the first disjunct is subsumed
by the second); past the guard the body reads `stats['average']`,
`stats['maximum']` and `stats['minimum']`, raising `KeyError`
(`Except.error ()`) when `maximum` or `minimum` is absent. -/
def predictFutureWeekPrice (current_price : ℚ) (stats : StatsDict)
    (weeks_ahead : ℤ) (today : ℤ) : Except Unit (Option Projection) :=
  if stats.average = none ∨ weeks_ahead < 1 then Except.ok none
  else
    match stats.average, stats.maximum, stats.minimum with
    | some avg, some mx, some mn =>
        Except.ok (some
          { current_price := current_price
            expected_price := current_price * (1 + avg / 100) ^ weeks_ahead.toNat
            optimistic_price := current_price * (1 + mx / 100) ^ weeks_ahead.toNat
            pessimistic_price := current_price * (1 + mn / 100) ^ weeks_ahead.toNat
            expected_change :=
              (current_price * (1 + avg / 100) ^ weeks_ahead.toNat / current_price - 1) * 100
            optimistic_change :=
              (current_price * (1 + mx / 100) ^ weeks_ahead.toNat / current_price - 1) * 100
            pessimistic_change :=
              (current_price * (1 + mn / 100) ^ weeks_ahead.toNat / current_price - 1) * 100
            weeks_ahead := weeks_ahead
            target_date := targetDate today weeks_ahead
            weekly_avg_return := avg
            weekly_max_return := mx
            weekly_min_return := mn })
    | _, _, _ => Except.error ()

/-- `predict_current_week_price`: the backward-compatibility wrapper, a
direct call of `predict_future_week_price` with `weeks_ahead = 1`. -/
def predictCurrentWeekPrice (current_price : ℚ) (stats : StatsDict)
    (today : ℤ) : Except Unit (Option Projection) :=
  predictFutureWeekPrice current_price stats 1 today

/-- Whether a projector outcome is a full projection dict. -/
def isProj : Except Unit (Option Projection) → Bool
  | Except.ok (some _) => true
  | _ => false

/-- `expected_price` of a projector outcome (0 when no projection). -/
def expectedOf : Except Unit (Option Projection) → ℚ
  | Except.ok (some p) => p.expected_price
  | _ => 0

/-- `optimistic_price` of a projector outcome (0 when no projection). -/
def optimisticOf : Except Unit (Option Projection) → ℚ
  | Except.ok (some p) => p.optimistic_price
  | _ => 0

/-- `pessimistic_price` of a projector outcome (0 when no projection). -/
def pessimisticOf : Except Unit (Option Projection) → ℚ
  | Except.ok (some p) => p.pessimistic_price
  | _ => 0

/-- `expected_change` of a projector outcome (0 when no projection). -/
def expectedChangeOf : Except Unit (Option Projection) → ℚ
  | Except.ok (some p) => p.expected_change
  | _ => 0

/-- `target_date` of a projector outcome (0 when no projection). -/
def targetDateOf : Except Unit (Option Projection) → ℤ
  | Except.ok (some p) => p.target_date
  | _ => 0

lemma predictFutureWeekPrice_eq (cp : ℚ) (stats : StatsDict) (weeks today : ℤ)
    (a b c : ℚ) (ha : stats.average = some a) (hb : stats.minimum = some b)
    (hc : stats.maximum = some c) (hw : 1 ≤ weeks) :
    predictFutureWeekPrice cp stats weeks today =
      Except.ok (some
        { current_price := cp
          expected_price := cp * (1 + a / 100) ^ weeks.toNat
          optimistic_price := cp * (1 + c / 100) ^ weeks.toNat
          pessimistic_price := cp * (1 + b / 100) ^ weeks.toNat
          expected_change := (cp * (1 + a / 100) ^ weeks.toNat / cp - 1) * 100
          optimistic_change := (cp * (1 + c / 100) ^ weeks.toNat / cp - 1) * 100
          pessimistic_change := (cp * (1 + b / 100) ^ weeks.toNat / cp - 1) * 100
          weeks_ahead := weeks
          target_date := targetDate today weeks
          weekly_avg_return := a
          weekly_max_return := c
          weekly_min_return := b }) := by
  have hw' : ¬ weeks < 1 := by omega
  simp [predictFutureWeekPrice, ha, hb, hc, hw']

lemma isProj_elim (cp : ℚ) (stats : StatsDict) (weeks today : ℤ)
    (h : isProj (predictFutureWeekPrice cp stats weeks today) = true) :
    ∃ a b c, stats.average = some a ∧ stats.minimum = some b ∧
      stats.maximum = some c ∧ 1 ≤ weeks := by
  obtain ⟨av, mn, mx⟩ := stats
  by_cases hw : weeks < 1
  · simp [predictFutureWeekPrice, hw, isProj] at h
  rcases av with _ | a
  · simp [predictFutureWeekPrice, isProj] at h
  rcases mn with _ | b
  · simp [predictFutureWeekPrice, hw, isProj] at h
  rcases mx with _ | c
  · simp [predictFutureWeekPrice, hw, isProj] at h
  exact ⟨a, b, c, rfl, rfl, rfl, by omega⟩

lemma targetDate_spec (today weeks : ℤ) :
    targetDate today weeks % 7 = 4 ∧ today + weeks * 7 ≤ targetDate today weeks := by
  unfold targetDate
  split <;> constructor <;> omega

/-- C1: for every current price, statistics record containing `average`, and
`weeks_ahead ≥ 1`, the projection returned by `predict_future_week_price`
has `expected_price = current_price * (1 + average/100)^weeks_ahead` (the
compounded total, not the linear value) and
`expected_change = ((expected_price / current_price) - 1) * 100`. -/
theorem predict_future_compounding (cp : ℚ) (stats : StatsDict)
    (weeks today : ℤ) (a : ℚ) (ha : stats.average = some a) (_hw : 1 ≤ weeks)
    (hp : isProj (predictFutureWeekPrice cp stats weeks today) = true) :
    expectedOf (predictFutureWeekPrice cp stats weeks today)
        = cp * (1 + a / 100) ^ weeks.toNat ∧
      expectedChangeOf (predictFutureWeekPrice cp stats weeks today)
        = (expectedOf (predictFutureWeekPrice cp stats weeks today) / cp - 1) * 100 := by
  obtain ⟨a', b, c, ha', hb, hc, hw'⟩ := isProj_elim cp stats weeks today hp
  have haa : a' = a := by rw [ha] at ha'; exact (Option.some_inj.mp ha').symm
  subst haa
  rw [predictFutureWeekPrice_eq cp stats weeks today a' b c ha' hb hc hw']
  simp [expectedOf, expectedChangeOf]

theorem predict_future_compounding_witness :
    expectedOf (predictFutureWeekPrice 100 ⟨some 2, some 2, some 2⟩ 4 0)
        = 100 * (1 + 2 / 100) ^ (4 : ℤ).toNat ∧
      expectedChangeOf (predictFutureWeekPrice 100 ⟨some 2, some 2, some 2⟩ 4 0)
        = (expectedOf (predictFutureWeekPrice 100 ⟨some 2, some 2, some 2⟩ 4 0) / 100 - 1)
            * 100 :=
  predict_future_compounding 100 ⟨some 2, some 2, some 2⟩ 4 0 2 rfl (by decide) (by decide)

/-- C3 (amended): `predict_future_week_price` returns the empty dict when
`average` is absent or `weeks_ahead < 1`; when `average` is present and
`weeks_ahead ≥ 1` it returns a full projection only if `minimum` and
`maximum` are also present, and raises `KeyError` when either of them is
absent (the guard checks only `average`). -/
theorem predict_guard_behavior (cp : ℚ) (stats : StatsDict) (weeks today : ℤ) :
    ((stats.average = none ∨ weeks < 1) →
        predictFutureWeekPrice cp stats weeks today = Except.ok none) ∧
      (stats.average ≠ none → 1 ≤ weeks →
        (stats.minimum = none ∨ stats.maximum = none) →
        predictFutureWeekPrice cp stats weeks today = Except.error ()) ∧
      (stats.average ≠ none → 1 ≤ weeks → stats.minimum ≠ none →
        stats.maximum ≠ none →
        isProj (predictFutureWeekPrice cp stats weeks today) = true) := by
  obtain ⟨av, mn, mx⟩ := stats
  rcases av with _ | a
  · refine ⟨fun _ => ?_, fun h1 => absurd rfl h1, fun h1 => absurd rfl h1⟩
    unfold predictFutureWeekPrice
    rw [if_pos (Or.inl rfl)]
  by_cases hw : weeks < 1
  · refine ⟨fun _ => ?_, fun _ h2 => absurd hw (by omega),
      fun _ h2 => absurd hw (by omega)⟩
    unfold predictFutureWeekPrice
    rw [if_pos (Or.inr hw)]
  have hguard : ¬ ((⟨some a, mn, mx⟩ : StatsDict).average = none ∨ weeks < 1) := by
    simp [hw]
  rcases mn with _ | b
  · rcases mx with _ | c
    · refine ⟨fun hg => absurd hg hguard, fun _ _ _ => ?_,
        fun _ _ h3 => absurd rfl h3⟩
      unfold predictFutureWeekPrice
      rw [if_neg hguard]
    · refine ⟨fun hg => absurd hg hguard, fun _ _ _ => ?_,
        fun _ _ h3 => absurd rfl h3⟩
      unfold predictFutureWeekPrice
      rw [if_neg hguard]
  · rcases mx with _ | c
    · refine ⟨fun hg => absurd hg hguard, fun _ _ _ => ?_,
        fun _ _ _ h4 => absurd rfl h4⟩
      unfold predictFutureWeekPrice
      rw [if_neg hguard]
    · refine ⟨fun hg => absurd hg hguard, fun _ _ h3 => ?_, fun _ _ _ _ => ?_⟩
      · rcases h3 with h3 | h3 <;> exact Option.noConfusion h3
      · unfold predictFutureWeekPrice
        rw [if_neg hguard]
        rfl

theorem predict_guard_behavior_witness :
    predictFutureWeekPrice 100 ⟨some 1, some 1, some 1⟩ 0 0 = Except.ok none :=
  (predict_guard_behavior 100 ⟨some 1, some 1, some 1⟩ 0 0).1 (Or.inr (by decide))

/-- C3 counterexample: a statistics record that has `average` but lacks
`minimum` and `maximum` makes `predict_future_week_price` raise `KeyError`
(`Except.error ()`) instead of returning an empty/absent result. -/
theorem predict_missing_minmax_raises :
    predictFutureWeekPrice 100 ⟨some 1, none, none⟩ 1 0 = Except.error () := rfl

/-- C4: whenever `predict_future_week_price` returns a projection, its
`target_date` falls on a Friday (weekday 4, Monday = 0 convention) and is
at least `today + weeks_ahead * 7` days. -/
theorem predict_target_friday (cp : ℚ) (stats : StatsDict) (weeks today : ℤ)
    (hp : isProj (predictFutureWeekPrice cp stats weeks today) = true) :
    targetDateOf (predictFutureWeekPrice cp stats weeks today) % 7 = 4 ∧
      today + weeks * 7 ≤ targetDateOf (predictFutureWeekPrice cp stats weeks today) := by
  obtain ⟨a, b, c, ha, hb, hc, hw⟩ := isProj_elim cp stats weeks today hp
  rw [predictFutureWeekPrice_eq cp stats weeks today a b c ha hb hc hw]
  simp only [targetDateOf]
  exact targetDate_spec today weeks

theorem predict_target_friday_witness :
    targetDateOf (predictFutureWeekPrice 100 ⟨some 2, some 1, some 3⟩ 1 0) % 7 = 4 ∧
      (0 : ℤ) + 1 * 7 ≤ targetDateOf (predictFutureWeekPrice 100 ⟨some 2, some 1, some 3⟩ 1 0) :=
  predict_target_friday 100 ⟨some 2, some 1, some 3⟩ 1 0 (by decide)

/-- C6 (amended): when additionally `current_price ≥ 0` and
`minimum ≥ -100` (so every weekly growth factor is nonnegative), the
scenario prices are ordered: pessimistic ≤ expected ≤ optimistic. -/
theorem predict_scenario_ordering (cp : ℚ) (stats : StatsDict)
    (weeks today : ℤ) (a b c : ℚ) (ha : stats.average = some a)
    (hb : stats.minimum = some b) (hc : stats.maximum = some c)
    (hba : b ≤ a) (hac : a ≤ c) (hb100 : -100 ≤ b) (hcp : 0 ≤ cp)
    (hw : 1 ≤ weeks) :
    pessimisticOf (predictFutureWeekPrice cp stats weeks today)
        ≤ expectedOf (predictFutureWeekPrice cp stats weeks today) ∧
      expectedOf (predictFutureWeekPrice cp stats weeks today)
        ≤ optimisticOf (predictFutureWeekPrice cp stats weeks today) := by
  rw [predictFutureWeekPrice_eq cp stats weeks today a b c ha hb hc hw]
  simp only [pessimisticOf, expectedOf, optimisticOf]
  have hb0 : (0 : ℚ) ≤ 1 + b / 100 := by linarith
  have ha0 : (0 : ℚ) ≤ 1 + a / 100 := by linarith
  constructor
  · exact mul_le_mul_of_nonneg_left
      (pow_le_pow_left₀ hb0 (by linarith) weeks.toNat) hcp
  · exact mul_le_mul_of_nonneg_left
      (pow_le_pow_left₀ ha0 (by linarith) weeks.toNat) hcp

theorem predict_scenario_ordering_witness :
    pessimisticOf (predictFutureWeekPrice 100 ⟨some 2, some 1, some 3⟩ 2 0)
        ≤ expectedOf (predictFutureWeekPrice 100 ⟨some 2, some 1, some 3⟩ 2 0) ∧
      expectedOf (predictFutureWeekPrice 100 ⟨some 2, some 1, some 3⟩ 2 0)
        ≤ optimisticOf (predictFutureWeekPrice 100 ⟨some 2, some 1, some 3⟩ 2 0) :=
  predict_scenario_ordering 100 ⟨some 2, some 1, some 3⟩ 2 0 2 1 3 rfl rfl rfl
    (by norm_num) (by norm_num) (by norm_num) (by norm_num) (by norm_num)

/-- C6 counterexample: with `maximum = 0 ≥ average = 0 ≥ minimum = -300`,
`current_price = 100` and `weeks_ahead = 2`, the weekly growth factor of the
pessimistic scenario is `-2`, whose square is `4`, so the pessimistic price
(400) strictly exceeds the expected price (100): the ordering invariant
fails as stated for every statistics record. -/
theorem predict_scenario_ordering_cex :
    isProj (predictFutureWeekPrice 100 ⟨some 0, some (-300), some 0⟩ 2 0) = true ∧
      ((-300 : ℚ) ≤ 0 ∧ (0 : ℚ) ≤ 0) ∧
      expectedOf (predictFutureWeekPrice 100 ⟨some 0, some (-300), some 0⟩ 2 0)
        < pessimisticOf (predictFutureWeekPrice 100 ⟨some 0, some (-300), some 0⟩ 2 0) := by
  rw [predictFutureWeekPrice_eq 100 ⟨some 0, some (-300), some 0⟩ 2 0 0 (-300) 0
    rfl rfl rfl (by norm_num)]
  refine ⟨rfl, ⟨by norm_num, le_refl 0⟩, ?_⟩
  simp only [expectedOf, pessimisticOf]
  show (100 : ℚ) * (1 + 0 / 100) ^ (2 : ℕ) < 100 * (1 + -300 / 100) ^ (2 : ℕ)
  norm_num

/-- C9: `predict_current_week_price` returns exactly the result of
`predict_future_week_price` with `weeks_ahead = 1`. -/
theorem predict_current_refines_future (cp : ℚ) (stats : StatsDict) (today : ℤ) :
    predictCurrentWeekPrice cp stats today = predictFutureWeekPrice cp stats 1 today := rfl

/-! ## Weekly return calculator (`calculate_weekly_returns`) -/

/-- The `W-FRI` bin label of a date: the Friday on or after it
(with `closed='right'`, a week bin ends on its Friday, inclusive). -/
def fridayOf (d : ℤ) : ℤ := d + (4 - d % 7) % 7

/-- Tail worker for the weekly resampling: carries the current bin's Friday
label `f` and the last close `c` seen in that bin. -/
def weeklyClosesGo (f : ℤ) (c : ℚ) : List (ℤ × ℚ) → List (ℤ × ℚ)
  | [] => [(f, c)]
  | p :: rest =>
      if fridayOf p.1 = f then weeklyClosesGo f p.2 rest
      else (f, c) :: weeklyClosesGo (fridayOf p.1) p.2 rest

/-- `data['Close'].resample('W-FRI', label='right', closed='right').last()`:
one (Friday label, last close of the week) pair per calendar week that
contains at least one trading day, for a series listed in date order. -/
def weeklyCloses : List (ℤ × ℚ) → List (ℤ × ℚ)
  | [] => []
  | p :: rest => weeklyClosesGo (fridayOf p.1) p.2 rest

/-- `.pct_change().dropna() * 100` over a series: for each adjacent pair
(prev, curr), the entry `(curr/prev - 1) * 100` labelled by curr's date;
the first entry (no predecessor) is dropped. -/
def pctChanges : List (ℤ × ℚ) → List (ℤ × ℚ)
  | p :: q :: rest => (q.1, (q.2 / p.2 - 1) * 100) :: pctChanges (q :: rest)
  | _ => []

/-- `calculate_weekly_returns`: empty for empty input, otherwise the
percentage changes between consecutive weekly closes. -/
def calculateWeeklyReturns (data : List (ℤ × ℚ)) : List (ℤ × ℚ) :=
  if data = [] then [] else pctChanges (weeklyCloses data)

lemma pctChanges_length : ∀ l : List (ℤ × ℚ), (pctChanges l).length = l.length - 1
  | [] => rfl
  | [_] => rfl
  | p :: q :: rest => by
      have ih := pctChanges_length (q :: rest)
      simp only [pctChanges, List.length_cons] at ih ⊢
      omega

lemma pctChanges_nil_of_short (l : List (ℤ × ℚ)) (h : l.length < 2) :
    pctChanges l = [] := by
  match l with
  | [] => rfl
  | [_] => rfl
  | p :: q :: rest => simp only [List.length_cons] at h; omega

lemma pctChanges_getD : ∀ (l : List (ℤ × ℚ)) (i : ℕ), i + 1 < l.length →
    (pctChanges l).getD i (0, 0) =
      ((l.getD (i + 1) (0, 0)).1,
        ((l.getD (i + 1) (0, 0)).2 / (l.getD i (0, 0)).2 - 1) * 100)
  | [], _, h => by simp at h
  | [_], _, h => by simp at h
  | p :: q :: rest, 0, _ => by simp [pctChanges]
  | p :: q :: rest, (i + 1), h => by
      have ih := pctChanges_getD (q :: rest) i (by
        simp only [List.length_cons] at h ⊢; omega)
      simp only [pctChanges, List.getD_cons_succ]
      exact ih

/-- C2: for every daily price series, `calculate_weekly_returns` has length
(number of weekly closes) − 1, each entry being `(curr/prev - 1) * 100` for
adjacent weekly closes, and is empty when the input is empty or fewer than
2 weekly closes result from resampling. -/
theorem weekly_returns_spec (data : List (ℤ × ℚ)) :
    (calculateWeeklyReturns data).length = (weeklyCloses data).length - 1 ∧
      (data = [] → calculateWeeklyReturns data = []) ∧
      ((weeklyCloses data).length < 2 → calculateWeeklyReturns data = []) ∧
      ∀ i : ℕ, i + 1 < (weeklyCloses data).length →
        (calculateWeeklyReturns data).getD i (0, 0) =
          (((weeklyCloses data).getD (i + 1) (0, 0)).1,
            (((weeklyCloses data).getD (i + 1) (0, 0)).2
                / ((weeklyCloses data).getD i (0, 0)).2 - 1) * 100) := by
  by_cases hd : data = []
  · subst hd
    exact ⟨rfl, fun _ => rfl, fun _ => rfl, fun i h => by simp [weeklyCloses] at h⟩
  · have hcal : calculateWeeklyReturns data = pctChanges (weeklyCloses data) := by
      simp [calculateWeeklyReturns, hd]
    refine ⟨?_, fun h => absurd h hd, ?_, ?_⟩
    · rw [hcal]; exact pctChanges_length _
    · intro h2
      rw [hcal]
      exact pctChanges_nil_of_short _ h2
    · intro i h
      rw [hcal]
      exact pctChanges_getD _ i h

/-- A concrete two-week series: Monday day 0 close 100, Monday day 7
close 105; weekly closes land on Fridays day 4 and day 11. -/
def dataW : List (ℤ × ℚ) := [(0, 100), (7, 105)]

theorem weekly_returns_spec_witness :
    (calculateWeeklyReturns dataW).getD 0 (0, 0) =
        (((weeklyCloses dataW).getD 1 (0, 0)).1,
          (((weeklyCloses dataW).getD 1 (0, 0)).2
              / ((weeklyCloses dataW).getD 0 (0, 0)).2 - 1) * 100) ∧
      (calculateWeeklyReturns dataW).length = (weeklyCloses dataW).length - 1 :=
  ⟨(weekly_returns_spec dataW).2.2.2 0 (by decide), (weekly_returns_spec dataW).1⟩

/-! ## Timeframe slicer (`get_timeframe_data`) -/

/-- `index.max()` of a non-empty date-indexed series (0 on empty input,
never consulted there). -/
def indexMax (l : List (ℤ × ℚ)) : ℤ :=
  match l with
  | [] => 0
  | p :: ps => ps.foldl (fun a q => max a q.1) p.1

/-- `index.min()` of a non-empty date-indexed series (0 on empty input,
never consulted there). -/
def indexMin (l : List (ℤ × ℚ)) : ℤ :=
  match l with
  | [] => 0
  | p :: ps => ps.foldl (fun a q => min a q.1) p.1

/-- `get_timeframe_data(full_data, years)`: empty for empty input, the whole
series when `years` is absent, otherwise the rows whose date is at least
`latest_date - pd.DateOffset(years=years)`. -/
def getTimeframeData (full : List (ℤ × ℚ)) (years : Option ℤ) : List (ℤ × ℚ) :=
  if full = [] then []
  else
    match years with
    | none => full
    | some y => full.filter fun p => decide (subYearsDate (indexMax full) y ≤ p.1)

lemma foldl_max_init_le (ps : List (ℤ × ℚ)) :
    ∀ a : ℤ, a ≤ ps.foldl (fun b q => max b q.1) a := by
  induction ps with
  | nil => intro a; exact le_refl a
  | cons q qs ih =>
      intro a
      exact le_trans (le_max_left a q.1) (ih (max a q.1))

lemma foldl_max_mem_le (ps : List (ℤ × ℚ)) :
    ∀ (a : ℤ) (x : ℤ × ℚ), x ∈ ps → x.1 ≤ ps.foldl (fun b q => max b q.1) a := by
  induction ps with
  | nil => intro a x hx; simp at hx
  | cons q qs ih =>
      intro a x hx
      rcases List.mem_cons.mp hx with hx | hx
      · subst hx
        exact le_trans (le_max_right a x.1) (foldl_max_init_le qs (max a x.1))
      · exact ih (max a q.1) x hx

lemma le_indexMax (l : List (ℤ × ℚ)) (p : ℤ × ℚ) (hp : p ∈ l) :
    p.1 ≤ indexMax l := by
  match l with
  | [] => simp at hp
  | hd :: tl =>
      rcases List.mem_cons.mp hp with h | h
      · subst h; exact foldl_max_init_le tl p.1
      · exact foldl_max_mem_le tl hd.1 p h

lemma foldl_max_cases (ps : List (ℤ × ℚ)) :
    ∀ a : ℤ, ps.foldl (fun b q => max b q.1) a = a ∨
      ∃ q ∈ ps, ps.foldl (fun b q => max b q.1) a = q.1 := by
  induction ps with
  | nil => intro a; exact Or.inl rfl
  | cons q qs ih =>
      intro a
      rcases ih (max a q.1) with h | ⟨r, hr, h⟩
      · rcases max_choice a q.1 with hm | hm
        · exact Or.inl (by rw [List.foldl_cons, h, hm])
        · exact Or.inr ⟨q, List.mem_cons_self q qs, by rw [List.foldl_cons, h, hm]⟩
      · exact Or.inr ⟨r, List.mem_cons_of_mem q hr, by rw [List.foldl_cons, h]⟩

lemma indexMax_mem (l : List (ℤ × ℚ)) (h : l ≠ []) : ∃ p ∈ l, p.1 = indexMax l := by
  match l with
  | [] => exact absurd rfl h
  | hd :: tl =>
      rcases foldl_max_cases tl hd.1 with hc | ⟨q, hq, hc⟩
      · exact ⟨hd, List.mem_cons_self hd tl, hc.symm⟩
      · exact ⟨q, List.mem_cons_of_mem hd hq, hc.symm⟩

lemma filter_ge_suffix (t : ℤ) :
    ∀ l : List (ℤ × ℚ), List.Pairwise (fun a b => a.1 ≤ b.1) l →
      (l.filter fun p => decide (t ≤ p.1)) <:+ l := by
  intro l
  induction l with
  | nil => intro _; exact List.nil_suffix
  | cons hd tl ih =>
      intro hsort
      by_cases hhd : t ≤ hd.1
      · have hall : ∀ p ∈ hd :: tl, (fun p : ℤ × ℚ => decide (t ≤ p.1)) p = true := by
          intro p hp
          rcases List.mem_cons.mp hp with h | h
          · subst h; exact decide_eq_true hhd
          · exact decide_eq_true (le_trans hhd ((List.pairwise_cons.mp hsort).1 p h))
        rw [List.filter_eq_self.mpr hall]
      · rw [List.filter_cons_of_neg (by simpa using hhd)]
        exact (ih (List.pairwise_cons.mp hsort).2).trans (List.suffix_cons hd tl)

/-- C7: slicing with `years=None` returns the input unchanged, and slicing
twice with the same `years` is the same as slicing once. -/
theorem timeframe_idempotent (full : List (ℤ × ℚ)) :
    getTimeframeData full none = full ∧
      ∀ y : ℤ, getTimeframeData (getTimeframeData full (some y)) (some y)
        = getTimeframeData full (some y) := by
  constructor
  · by_cases h : full = []
    · simp [getTimeframeData, h]
    · simp [getTimeframeData, h]
  · intro y
    by_cases h : full = []
    · simp [getTimeframeData, h]
    · by_cases hsempty : getTimeframeData full (some y) = []
      · rw [hsempty]
        simp [getTimeframeData]
      · set s := getTimeframeData full (some y) with hs
        have hfilter : s = full.filter
            fun p => decide (subYearsDate (indexMax full) y ≤ p.1) := by
          rw [hs]
          simp [getTimeframeData, h]
        have hmax : indexMax s = indexMax full := by
          obtain ⟨p, hpfull, hpmax⟩ := indexMax_mem full h
          obtain ⟨q, hq⟩ := List.exists_mem_of_ne_nil _ hsempty
          have hq' := hq
          rw [hfilter, List.mem_filter] at hq'
          have hstart_le : subYearsDate (indexMax full) y ≤ q.1 :=
            of_decide_eq_true hq'.2
          have hq_le : q.1 ≤ indexMax full := le_indexMax full q hq'.1
          have hp_in_s : p ∈ s := by
            rw [hfilter, List.mem_filter]
            exact ⟨hpfull, decide_eq_true (le_trans hstart_le (hpmax ▸ hq_le))⟩
          apply le_antisymm
          · obtain ⟨r, hrs, hrmax⟩ := indexMax_mem _ hsempty
            rw [hfilter, List.mem_filter] at hrs
            rw [← hrmax]
            exact le_indexMax full r hrs.1
          · rw [← hpmax]
            exact le_indexMax _ p hp_in_s
        have hstep : getTimeframeData s (some y)
            = s.filter fun p => decide (subYearsDate (indexMax s) y ≤ p.1) := by
          simp [getTimeframeData, hsempty]
        rw [hstep, hmax]
        refine List.filter_eq_self.mpr fun p hp => ?_
        rw [hfilter, List.mem_filter] at hp
        exact hp.2

/-- C10: on a series sorted ascending by date, `get_timeframe_data` returns
a contiguous suffix of its input: retained rows keep their order and values,
nothing is added, and every dropped row precedes every retained one. -/
theorem timeframe_slice_suffix (full : List (ℤ × ℚ)) (y : ℤ)
    (hsorted : List.Pairwise (fun a b => a.1 ≤ b.1) full) :
    getTimeframeData full (some y) <:+ full := by
  by_cases h : full = []
  · subst h; simp [getTimeframeData]
  · have hfilter : getTimeframeData full (some y)
        = full.filter fun p => decide (subYearsDate (indexMax full) y ≤ p.1) := by
      simp [getTimeframeData, h]
    rw [hfilter]
    exact filter_ge_suffix _ full hsorted

theorem timeframe_slice_suffix_witness :
    getTimeframeData dataW (some 1) <:+ dataW :=
  timeframe_slice_suffix dataW 1 (by decide)

/-! ## Statistics engine (`calculate_statistics`, `src/utils/stats.py`) -/

/-- `returns.mean()`: arithmetic mean. -/
def seriesMean (l : List ℚ) : ℚ := l.sum / l.length

/-- `returns.min()` (0 on empty input, never consulted there). -/
def seriesMinQ (l : List ℚ) : ℚ :=
  match l with
  | [] => 0
  | x :: xs => xs.foldl min x

/-- `returns.max()` (0 on empty input, never consulted there). -/
def seriesMaxQ (l : List ℚ) : ℚ :=
  match l with
  | [] => 0
  | x :: xs => xs.foldl max x

/-- Sum of squared deviations from the mean. -/
def sqDevSum (l : List ℚ) : ℚ := (l.map (fun x => (x - seriesMean l) ^ 2)).sum

/-- Sample variance with denominator `n - 1` (the `ddof=1` default of
`Series.std()`). -/
def sampleVar (l : List ℚ) : ℚ := sqDevSum l / ((l.length : ℚ) - 1)

/-- `returns.std()`: sample standard deviation; `none` models the NaN that
pandas produces from the `0/0` at fewer than 2 samples. -/
noncomputable def sampleStd (l : List ℚ) : Option ℝ :=
  if l.length < 2 then none else some (Real.sqrt ((sampleVar l : ℝ)))

/-- The statistics dict produced by `calculate_statistics`. -/
structure StatsRecord where
  average : ℚ
  minimum : ℚ
  maximum : ℚ
  std_dev : Option ℝ
  count : ℕ

/-- `calculate_statistics(returns)`: the empty dict (`none`) on an empty
series, otherwise `{average, minimum, maximum, std_dev, count}`. -/
noncomputable def calculateStatistics (returns : List ℚ) : Option StatsRecord :=
  if returns = [] then none
  else some
    { average := seriesMean returns
      minimum := seriesMinQ returns
      maximum := seriesMaxQ returns
      std_dev := sampleStd returns
      count := returns.length }

lemma foldlq_min_le_init (xs : List ℚ) : ∀ a : ℚ, xs.foldl min a ≤ a := by
  induction xs with
  | nil => intro a; exact le_refl a
  | cons x t ih => intro a; exact le_trans (ih (min a x)) (min_le_left a x)

lemma foldlq_min_le_mem (xs : List ℚ) :
    ∀ (a x : ℚ), x ∈ xs → xs.foldl min a ≤ x := by
  induction xs with
  | nil => intro a x hx; simp at hx
  | cons q t ih =>
      intro a x hx
      rcases List.mem_cons.mp hx with hx | hx
      · subst hx
        exact le_trans (foldlq_min_le_init t (min a x)) (min_le_right a x)
      · exact ih (min a q) x hx

lemma foldlq_min_cases (xs : List ℚ) :
    ∀ a : ℚ, xs.foldl min a = a ∨ ∃ x ∈ xs, xs.foldl min a = x := by
  induction xs with
  | nil => intro a; exact Or.inl rfl
  | cons q t ih =>
      intro a
      rcases ih (min a q) with h | ⟨r, hr, h⟩
      · rcases min_choice a q with hm | hm
        · exact Or.inl (by rw [List.foldl_cons, h, hm])
        · exact Or.inr ⟨q, List.mem_cons_self q t, by rw [List.foldl_cons, h, hm]⟩
      · exact Or.inr ⟨r, List.mem_cons_of_mem q hr, by rw [List.foldl_cons, h]⟩

lemma foldlq_max_init_le (xs : List ℚ) : ∀ a : ℚ, a ≤ xs.foldl max a := by
  induction xs with
  | nil => intro a; exact le_refl a
  | cons x t ih => intro a; exact le_trans (le_max_left a x) (ih (max a x))

lemma foldlq_max_mem_le (xs : List ℚ) :
    ∀ (a x : ℚ), x ∈ xs → x ≤ xs.foldl max a := by
  induction xs with
  | nil => intro a x hx; simp at hx
  | cons q t ih =>
      intro a x hx
      rcases List.mem_cons.mp hx with hx | hx
      · subst hx
        exact le_trans (le_max_right a x) (foldlq_max_init_le t (max a x))
      · exact ih (max a q) x hx

lemma foldlq_max_cases (xs : List ℚ) :
    ∀ a : ℚ, xs.foldl max a = a ∨ ∃ x ∈ xs, xs.foldl max a = x := by
  induction xs with
  | nil => intro a; exact Or.inl rfl
  | cons q t ih =>
      intro a
      rcases ih (max a q) with h | ⟨r, hr, h⟩
      · rcases max_choice a q with hm | hm
        · exact Or.inl (by rw [List.foldl_cons, h, hm])
        · exact Or.inr ⟨q, List.mem_cons_self q t, by rw [List.foldl_cons, h, hm]⟩
      · exact Or.inr ⟨r, List.mem_cons_of_mem q hr, by rw [List.foldl_cons, h]⟩

lemma seriesMinQ_mem (l : List ℚ) (h : l ≠ []) : seriesMinQ l ∈ l := by
  match l with
  | [] => exact absurd rfl h
  | x :: xs =>
      rcases foldlq_min_cases xs x with hc | ⟨r, hr, hc⟩
      · rw [seriesMinQ, hc]; exact List.mem_cons_self x xs
      · rw [seriesMinQ, hc]; exact List.mem_cons_of_mem x hr

lemma seriesMaxQ_mem (l : List ℚ) (h : l ≠ []) : seriesMaxQ l ∈ l := by
  match l with
  | [] => exact absurd rfl h
  | x :: xs =>
      rcases foldlq_max_cases xs x with hc | ⟨r, hr, hc⟩
      · rw [seriesMaxQ, hc]; exact List.mem_cons_self x xs
      · rw [seriesMaxQ, hc]; exact List.mem_cons_of_mem x hr

lemma seriesMinQ_le (l : List ℚ) (x : ℚ) (hx : x ∈ l) : seriesMinQ l ≤ x := by
  match l with
  | [] => simp at hx
  | q :: xs =>
      rcases List.mem_cons.mp hx with h | h
      · subst h; exact foldlq_min_le_init xs x
      · exact foldlq_min_le_mem xs q x h

lemma le_seriesMaxQ (l : List ℚ) (x : ℚ) (hx : x ∈ l) : x ≤ seriesMaxQ l := by
  match l with
  | [] => simp at hx
  | q :: xs =>
      rcases List.mem_cons.mp hx with h | h
      · subst h; exact foldlq_max_init_le xs x
      · exact foldlq_max_mem_le xs q x h

lemma sqDevSum_nonneg (l : List ℚ) : 0 ≤ sqDevSum l := by
  refine List.sum_nonneg fun x hx => ?_
  obtain ⟨y, _, rfl⟩ := List.mem_map.mp hx
  exact sq_nonneg _

/-- C8: `calculate_statistics` returns the empty record exactly on empty
input; otherwise average is the arithmetic mean, minimum/maximum are
attained extrema, count is the length, and std_dev is the sample standard
deviation with denominator `n - 1`, NaN-like (`none`) when `count < 2`. -/
theorem calculate_statistics_spec (l : List ℚ) :
    (calculateStatistics l = none ↔ l = []) ∧
      ∀ s, calculateStatistics l = some s →
        s.count = l.length ∧
          s.average * l.length = l.sum ∧
          s.minimum ∈ l ∧
          s.maximum ∈ l ∧
          (∀ x ∈ l, s.minimum ≤ x ∧ x ≤ s.maximum) ∧
          (l.length < 2 → s.std_dev = none) ∧
          (2 ≤ l.length → ∀ r, s.std_dev = some r →
            0 ≤ r ∧ r ^ 2 = (sqDevSum l : ℝ) / ((l.length : ℝ) - 1)) := by
  by_cases h : l = []
  · subst h
    exact ⟨by simp [calculateStatistics], fun s hs => by simp [calculateStatistics] at hs⟩
  constructor
  · simp [calculateStatistics, h]
  intro s hs
  have hsome : s = ⟨seriesMean l, seriesMinQ l, seriesMaxQ l, sampleStd l, l.length⟩ := by
    simp [calculateStatistics, h] at hs
    exact hs.symm
  subst hsome
  have hlen : (l.length : ℚ) ≠ 0 := by
    simpa using List.length_eq_zero.not.mpr h
  refine ⟨rfl, ?_, seriesMinQ_mem l h, seriesMaxQ_mem l h, ?_, ?_, ?_⟩
  · show seriesMean l * l.length = l.sum
    rw [seriesMean]
    exact div_mul_cancel₀ l.sum hlen
  · exact fun x hx => ⟨seriesMinQ_le l x hx, le_seriesMaxQ l x hx⟩
  · intro hshort
    show sampleStd l = none
    rw [sampleStd, if_pos hshort]
  · intro hlong r hr
    have : sampleStd l = some (Real.sqrt ((sampleVar l : ℝ))) := by
      rw [sampleStd, if_neg (by omega)]
    rw [this] at hr
    obtain rfl : r = Real.sqrt ((sampleVar l : ℝ)) := (Option.some_inj.mp hr).symm
    have hvar : (0 : ℝ) ≤ (sampleVar l : ℝ) := by
      have h1 : (0 : ℚ) ≤ sampleVar l := by
        refine div_nonneg (sqDevSum_nonneg l) ?_
        have : (2 : ℚ) ≤ (l.length : ℚ) := by exact_mod_cast hlong
        linarith
      exact_mod_cast h1
    refine ⟨Real.sqrt_nonneg _, ?_⟩
    rw [Real.sq_sqrt hvar, sampleVar]
    push_cast
    ring

/-- `calculate_statistics` on the one-element series `[5]`. -/
def statsRecW : StatsRecord :=
  { average := 5, minimum := 5, maximum := 5, std_dev := none, count := 1 }

lemma calculateStatistics_single : calculateStatistics [(5 : ℚ)] = some statsRecW := by
  rw [calculateStatistics, if_neg (by decide)]
  have h1 : seriesMean [(5 : ℚ)] = 5 := by norm_num [seriesMean]
  have h4 : sampleStd [(5 : ℚ)] = none := by rw [sampleStd, if_pos (by decide)]
  simp [statsRecW, h1, h4, seriesMinQ, seriesMaxQ]

theorem calculate_statistics_spec_witness :
    calculateStatistics ([] : List ℚ) = none ∧
      statsRecW.count = ([5] : List ℚ).length ∧ statsRecW.std_dev = none := by
  refine ⟨(calculate_statistics_spec []).1.mpr rfl, ?_, ?_⟩
  · exact ((calculate_statistics_spec [5]).2 statsRecW calculateStatistics_single).1
  · exact ((calculate_statistics_spec [5]).2 statsRecW
      calculateStatistics_single).2.2.2.2.2.1 (by decide)

/-! ## Multi-timeframe aggregator (`calculate_multi_timeframe_stats`) -/

/-- The fixed label→window table, in declaration order. -/
def timeframes : List (String × Option ℤ) :=
  [("max", none), ("10yr", some 10), ("5yr", some 5), ("3yr", some 3), ("1yr", some 1)]

/-- A statistics record augmented with the period info added by the
aggregator (`data_start`, `data_end`, `years_of_data`). -/
structure TFStats where
  average : ℚ
  minimum : ℚ
  maximum : ℚ
  std_dev : Option ℝ
  count : ℕ
  data_start : ℤ
  data_end : ℤ
  years_of_data : ℚ

/-- `stats['data_start'] = period_data.index.min()` etc.:
the in-place augmentation performed under `if stats:`. -/
def augmentStats (s : StatsRecord) (pd : List (ℤ × ℚ)) : TFStats :=
  { average := s.average
    minimum := s.minimum
    maximum := s.maximum
    std_dev := s.std_dev
    count := s.count
    data_start := indexMin pd
    data_end := indexMax pd
    years_of_data := (pd.length : ℚ) / 252 }

/-- The value stored under a label: `calculate_statistics` of the weekly
returns of the slice, augmented when non-empty (`if stats:` then augment,
then store; an empty stats dict would be stored as-is, i.e. `none`). -/
noncomputable def augmentedStat (pd : List (ℤ × ℚ)) : Option TFStats :=
  (calculateStatistics ((calculateWeeklyReturns pd).map Prod.snd)).map
    fun s => augmentStats s pd

/-- One iteration of the aggregator loop: `none` means the label is skipped
(`continue` on empty slice or empty weekly returns), otherwise the
(label, stored value) pair. -/
noncomputable def processTimeframe (full : List (ℤ × ℚ))
    (nv : String × Option ℤ) : Option (String × Option TFStats) :=
  if getTimeframeData full nv.2 = [] then none
  else if calculateWeeklyReturns (getTimeframeData full nv.2) = [] then none
  else some (nv.1, augmentedStat (getTimeframeData full nv.2))

/-- `calculate_multi_timeframe_stats`: the loop over `timeframes`, with the
results dict as an insertion-ordered association list. -/
noncomputable def calculateMultiTimeframeStats (full : List (ℤ × ℚ)) :
    List (String × Option TFStats) :=
  timeframes.filterMap (processTimeframe full)

lemma calculateStatistics_none_iff (l : List ℚ) :
    calculateStatistics l = none ↔ l = [] := by
  by_cases h : l = [] <;> simp [calculateStatistics, h]

lemma processTimeframe_fst (full : List (ℤ × ℚ)) (nv : String × Option ℤ)
    (x : String × Option TFStats) (h : processTimeframe full nv = some x) :
    x.1 = nv.1 := by
  unfold processTimeframe at h
  by_cases h1 : getTimeframeData full nv.2 = []
  · rw [if_pos h1] at h; exact Option.noConfusion h
  by_cases h2 : calculateWeeklyReturns (getTimeframeData full nv.2) = []
  · rw [if_neg h1, if_pos h2] at h; exact Option.noConfusion h
  · rw [if_neg h1, if_neg h2] at h
    rw [← Option.some_inj.mp h]

lemma processTimeframe_none (full : List (ℤ × ℚ)) (nv : String × Option ℤ)
    (h : getTimeframeData full nv.2 = [] ∨
      calculateWeeklyReturns (getTimeframeData full nv.2) = []) :
    processTimeframe full nv = none := by
  unfold processTimeframe
  rcases h with h | h
  · rw [if_pos h]
  · by_cases h1 : getTimeframeData full nv.2 = []
    · rw [if_pos h1]
    · rw [if_neg h1, if_pos h]

lemma augmentedStat_ne_none (pd : List (ℤ × ℚ))
    (h : calculateWeeklyReturns pd ≠ []) : augmentedStat pd ≠ none := by
  unfold augmentedStat
  rw [Ne, Option.map_eq_none', calculateStatistics_none_iff]
  intro hc
  exact h (by simpa using hc)

lemma timeframes_key_unique :
    ∀ p ∈ timeframes, ∀ q ∈ timeframes, p.1 = q.1 → p.2 = q.2 := by decide

lemma filterMap_process_keys (full : List (ℤ × ℚ)) :
    ∀ l : List (String × Option ℤ),
      ((l.filterMap (processTimeframe full)).map Prod.fst).Sublist (l.map Prod.fst) := by
  intro l
  induction l with
  | nil => simp
  | cons a t ih =>
      rw [List.filterMap_cons]
      cases hfa : processTimeframe full a with
      | none =>
          rw [List.map_cons]
          exact ih.cons a.1
      | some b =>
          rw [List.map_cons, List.map_cons, processTimeframe_fst full a b hfa]
          exact ih.cons₂ a.1

/-- C5: the aggregator produces labels only from `max, 10yr, 5yr, 3yr, 1yr`
in that order; a label whose slice or weekly-return series is empty is
absent from the result, and no label is ever stored with an empty value;
every stored record is the statistics record augmented with
`data_start = slice min date`, `data_end = slice max date`,
`years_of_data = len(slice)/252`. -/
theorem multi_timeframe_spec (full : List (ℤ × ℚ)) :
    ((calculateMultiTimeframeStats full).map Prod.fst).Sublist
        ["max", "10yr", "5yr", "3yr", "1yr"] ∧
      (∀ name : String,
        (name, (none : Option TFStats)) ∉ calculateMultiTimeframeStats full) ∧
      ∀ nv ∈ timeframes,
        ((getTimeframeData full nv.2 = [] ∨
            calculateWeeklyReturns (getTimeframeData full nv.2) = []) →
          ∀ v, (nv.1, v) ∉ calculateMultiTimeframeStats full) ∧
          (getTimeframeData full nv.2 ≠ [] →
            calculateWeeklyReturns (getTimeframeData full nv.2) ≠ [] →
            (nv.1, augmentedStat (getTimeframeData full nv.2))
                ∈ calculateMultiTimeframeStats full ∧
              ∀ t, augmentedStat (getTimeframeData full nv.2) = some t →
                t.data_start = indexMin (getTimeframeData full nv.2) ∧
                  t.data_end = indexMax (getTimeframeData full nv.2) ∧
                  t.years_of_data = ((getTimeframeData full nv.2).length : ℚ) / 252) := by
  refine ⟨?_, ?_, ?_⟩
  · have hmap : timeframes.map Prod.fst = ["max", "10yr", "5yr", "3yr", "1yr"] := rfl
    exact hmap ▸ filterMap_process_keys full timeframes
  · intro name hmem
    obtain ⟨nv, _, hproc⟩ := List.mem_filterMap.mp hmem
    by_cases h1 : getTimeframeData full nv.2 = []
    · rw [processTimeframe, if_pos h1] at hproc
      exact Option.noConfusion hproc
    by_cases h2 : calculateWeeklyReturns (getTimeframeData full nv.2) = []
    · rw [processTimeframe, if_neg h1, if_pos h2] at hproc
      exact Option.noConfusion hproc
    · rw [processTimeframe, if_neg h1, if_neg h2] at hproc
      have hpair := Option.some_inj.mp hproc
      have hsnd : augmentedStat (getTimeframeData full nv.2) = none :=
        congrArg Prod.snd hpair
      exact augmentedStat_ne_none _ h2 hsnd
  · intro nv hnv
    constructor
    · intro hempty v hmem
      obtain ⟨nv', hnv', hproc⟩ := List.mem_filterMap.mp hmem
      have hfst : nv'.1 = nv.1 := (processTimeframe_fst full nv' _ hproc).symm
      have hsnd : nv'.2 = nv.2 := timeframes_key_unique nv' hnv' nv hnv hfst
      have hnone : processTimeframe full nv' = none :=
        processTimeframe_none full nv' (hsnd ▸ hempty)
      rw [hproc] at hnone
      exact Option.noConfusion hnone
    · intro h1 h2
      constructor
      · refine List.mem_filterMap.mpr ⟨nv, hnv, ?_⟩
        rw [processTimeframe, if_neg h1, if_neg h2]
      · intro t ht
        unfold augmentedStat at ht
        obtain ⟨s, _, hts⟩ := Option.map_eq_some'.mp ht
        rw [← hts]
        exact ⟨rfl, rfl, rfl⟩

theorem multi_timeframe_spec_witness :
    ("max", augmentedStat (getTimeframeData dataW none))
        ∈ calculateMultiTimeframeStats dataW ∧
      ("max", (none : Option TFStats)) ∉ calculateMultiTimeframeStats dataW :=
  ⟨(((multi_timeframe_spec dataW).2.2 ("max", none) (by decide)).2
      (by decide) (by decide)).1,
    (multi_timeframe_spec dataW).2.1 "max"⟩
